import Mathlib

/-
  Shallow embedding of the chinese-bm25-search repository.

  Sources embedded:
    - chinese_processor.py : text preprocessing, title extraction, index building
    - chinese_bm25_search.py : BM25 ranking with title / keyword boosting
    - config.py : the ChineseConfig constants

  Modelling conventions:
    - Python floats are idealised as real numbers (scores) or rationals
      (the exactly-representable bonus arithmetic of the title scorer).
    - The external jieba segmenter (an external library, out of the
      repository) is an oracle parameter `seg : String -> List (String x String)`
      returning (word, part-of-speech) pairs, as the spec prescribes
      ("the linguistic tokenizer is treated as an opaque external service").
    - Python dict/Counter values preserve first-occurrence key order; they are
      embedded as association lists in first-occurrence order.
    - Python set iteration order is implementation defined; the candidate set
      of `search` is embedded as the first-occurrence deduplication of the
      insertion sequence, which is also what CPython produces for the small
      collision-free examples used below.
-/

/-! ## Character and string utilities (Python semantics) -/

/-- Python whitespace (the `\s` class / `str.strip` set), restricted to the
characters that occur in this corpus: ASCII whitespace plus the ideographic
and no-break spaces. -/
def isPySpace (c : Char) : Bool :=
  c = ' ' || c = '\t' || c = '\n' || c = '\r' || c = '\x0b' || c = '\x0c' ||
  c = '　' || c = ' '

/-- The CJK unified ideograph range `[一-鿿]` used throughout the
repository to detect Chinese characters. -/
def isCJK (c : Char) : Bool :=
  0x4e00 ≤ c.toNat && c.toNat ≤ 0x9fff

/-- Python word characters (`\w`): letters, digits and underscore.  Restricted
to ASCII alphanumerics plus the CJK range, which covers every character this
corpus feeds to the regexes. -/
def isWordChar (c : Char) : Bool :=
  c.isAlphanum || c = '_' || isCJK c

/-- `str.strip()` on a character list. -/
def pyStripChars (l : List Char) : List Char :=
  ((l.dropWhile isPySpace).reverse.dropWhile isPySpace).reverse

/-- `str.strip()`. -/
def pyStrip (s : String) : String :=
  String.mk (pyStripChars s.data)

/-- Worker for `re.sub(r'\s+', ' ', text)`: the flag records whether the
previous character was whitespace (already replaced by a single space). -/
def collapseWSAux : Bool → List Char → List Char
  | _, [] => []
  | prevSpace, c :: rest =>
    if isPySpace c then
      if prevSpace then collapseWSAux true rest
      else ' ' :: collapseWSAux true rest
    else c :: collapseWSAux false rest

/-- `re.sub(r'\s+', ' ', text)`: every maximal whitespace run becomes one space. -/
def collapseWS (l : List Char) : List Char := collapseWSAux false l

/-- `re.sub(r'[^一-鿿\w\s]', ' ', text)`: any character that is not
CJK, word, or whitespace is replaced by a space. -/
def cleanChars (l : List Char) : List Char :=
  l.map fun c => if isCJK c || isWordChar c || isPySpace c then c else ' '

/-- Worker for `textLines`: accumulate the current line (reversed). -/
def splitLinesAux : List Char → List Char → List String
  | acc, [] => [String.mk acc.reverse]
  | acc, c :: rest =>
    if c = '\n' then String.mk acc.reverse :: splitLinesAux [] rest
    else splitLinesAux (c :: acc) rest

/-- `text.split('\n')`. -/
def textLines (s : String) : List String := splitLinesAux [] s.data

/-- `' '.join(parts)`. -/
def spaceJoin : List String → String
  | [] => ""
  | [s] => s
  | s :: rest => s ++ " " ++ spaceJoin rest

/-- `str.lower()` (ASCII case folding; CJK characters are caseless). -/
def pyLower (s : String) : String := String.mk (s.data.map Char.toLower)

/-- Does the string contain a CJK character (`re.search(r'[一-鿿]', s)`)? -/
def hasCJK (s : String) : Bool := s.data.any isCJK

/-- Does the string contain a sentence-ending mark (`re.search(r'[。！？]', s)`)? -/
def hasSentencePunct (s : String) : Bool :=
  s.data.any fun c => c = '。' || c = '！' || c = '？'

/-- `len(re.findall(r'[一-鿿]', s))`: the CJK character count. -/
def countCJK (s : String) : ℕ := s.data.countP isCJK

/-- Python's `in` operator on strings: substring containment. -/
def pyIn (needle hay : String) : Prop := needle.data <:+: hay.data

instance (n h : String) : Decidable (pyIn n h) :=
  inferInstanceAs (Decidable (n.data <:+: h.data))

/-- First-occurrence deduplication: the iteration (key) order of a Python
dict/Counter built by insertion, and the canonical enumeration of a set. -/
def firstDedup {α : Type} [DecidableEq α] : List α → List α
  | [] => []
  | x :: xs => x :: (firstDedup xs).filter (fun y => y ≠ x)

/-- `collections.Counter(l)` as an association list: distinct elements in
first-occurrence order, each paired with its multiplicity. -/
def counterList (l : List String) : List (String × ℕ) :=
  (firstDedup l).map fun t => (t, l.count t)

/-- Python list slicing `l[:n]` for an integer `n` (negative `n` counts from
the end). -/
def pySliceTo {α : Type} (n : ℤ) (l : List α) : List α :=
  if 0 ≤ n then l.take n.toNat else l.take (l.length - (-n).toNat)

/-! ## config.py : ChineseConfig -/

namespace ChineseConfig

/-- `K1 = 1.5`. -/
noncomputable def K1 : ℝ := 3 / 2

/-- `B = 0.6`. -/
noncomputable def B : ℝ := 3 / 5

/-- `DEFAULT_RESULTS_LIMIT = 10`. -/
def DEFAULT_RESULTS_LIMIT : ℤ := 10

/-- `MAX_RESULTS_LIMIT = 50`. -/
def MAX_RESULTS_LIMIT : ℤ := 50

/-- `MIN_TERM_LENGTH = 1`. -/
def MIN_TERM_LENGTH : ℕ := 1

/-- The keys of `KEYWORD_BOOSTS` (the keyword-boost allow-list). -/
def keywordBoostKeys : List String := ["藕汤", "筒骨", "煨"]

/-- `KEYWORD_BOOSTS.get(term, 1.0)`: 藕汤 ↦ 3.0, 筒骨 ↦ 2.0, 煨 ↦ 1.5,
default 1.0. -/
def getKeywordBoost (t : String) : ℚ :=
  if t = "藕汤" then 3 else if t = "筒骨" then 2 else if t = "煨" then 3/2 else 1

/-- `TITLE_EXACT_MATCH_BONUS = 15.0`. -/
def TITLE_EXACT_MATCH_BONUS : ℚ := 15

/-- `TITLE_SUBSTRING_MATCH_BONUS = 10.0`. -/
def TITLE_SUBSTRING_MATCH_BONUS : ℚ := 10

/-- `TITLE_PARTIAL_MATCH_BONUS[0.8] = 12.0`. -/
def TITLE_PARTIAL_80 : ℚ := 12

/-- `TITLE_PARTIAL_MATCH_BONUS[0.6] = 9.0`. -/
def TITLE_PARTIAL_60 : ℚ := 9

/-- `TITLE_PARTIAL_MATCH_BONUS[0.4] = 6.0`. -/
def TITLE_PARTIAL_40 : ℚ := 6

end ChineseConfig

/-! ## chinese_processor.py : tokenization -/

/-- The external jieba `pseg.cut` segmenter, treated as an oracle returning
(word, part-of-speech) pairs. -/
def Seg : Type := String → List (String × String)

/-- The stop-word set of `ChineseDocumentProcessor._initialize_chinese_processing`. -/
def stopWords : List String :=
  ["的", "了", "在", "是", "我", "有", "和", "就", "不", "人", "都", "一", "一个", "这个", "那个",
   "上", "也", "很", "到", "说", "要", "去", "你", "会", "着", "没有", "看", "好", "自己", "这", "那",
   "里", "个", "们", "能", "对", "时", "下", "大", "来", "为", "多", "么", "什", "又", "可", "还",
   "只", "从", "用", "他", "她", "它", "我们", "你们", "他们", "她们", "它们", "这些", "那些",
   "什么", "怎么", "为什么", "因为", "所以", "但是", "然后", "如果", "虽然", "而且", "或者",
   "第一", "第二", "第三", "几个", "一些", "很多", "一点", "有些",
   "，", "。", "！", "？", ";", "：", "“", "”", "‘", "’", "（", "）", "【", "】", "《", "》",
   "、", "　", "…", "—", "–", "·", "〈", "〉", "「", "」", "『", "』", "［", "］", "｛", "｝"]

/-- The `meaningful_pos` part-of-speech allow-list of `preprocess_text`. -/
def meaningfulPos : List String :=
  ["n", "nr", "ns", "nt", "nz", "v", "vd", "vn", "a", "ad", "an", "i", "l", "j",
   "eng", "m", "x"]

/-- `ChineseDocumentProcessor.preprocess_text` (POS-filtering branch,
`ENABLE_POS_FILTERING = True`): strip; collapse whitespace; blank out
non-word characters; segment via the oracle; keep stripped words of an
allowed part of speech, of length ≥ MIN_TERM_LENGTH, that are not stop
words. -/
def preprocess_text (seg : Seg) (text : String) : List String :=
  if pyStrip text = "" then []
  else
    let cleaned := String.mk (cleanChars (collapseWS (pyStripChars text.data)))
    (seg cleaned).filterMap fun wp =>
      let w := pyStrip wp.1
      if wp.2 ∈ meaningfulPos ∧ ChineseConfig.MIN_TERM_LENGTH ≤ w.length ∧
          w ∉ stopWords then some w
      else none

/-! ## chinese_processor.py : extract_title_from_content -/

/-- Strategy 1, per line: the regex `^#+\s*(.+)$` applied to one line.  A line
beginning with `#` signs and having at least one further character yields the
remainder; the caller strips it (`header.strip()`), so the capture is returned
already stripped. -/
def mdHeaderValue (line : String) : Option String :=
  match line.data with
  | [] => none
  | c :: rest =>
    if c = '#' then
      let body := rest.dropWhile (fun d => d = '#')
      if body = [] then none else some (pyStrip (String.mk body))
    else none

/-- Strategy 1 filter: `3 <= len(header) <= 50` and a CJK character. -/
def mdQualifies (v : String) : Bool :=
  3 ≤ v.length && v.length ≤ 50 && hasCJK v

/-- One candidate position for a labeled pattern `LABEL[：:]\s*(.+)`: if the
text starts with the label followed by a colon, skip the whitespace run
(which, as in the regex, may cross newlines) and capture up to the next
newline.  Returns the capture and the remaining text after it. -/
def labelMatchAt (label : List Char) (l : List Char) : Option (List Char × List Char) :=
  let afterLabel := l.drop label.length
  if label.isPrefixOf l ∧ (afterLabel.head? = some '：' ∨ afterLabel.head? = some ':') then
    let afterWS := (afterLabel.drop 1).dropWhile isPySpace
    let cap := afterWS.takeWhile (fun d => d ≠ '\n')
    if cap = [] then none else some (cap, afterWS.drop cap.length)
  else none

theorem labelMatchAt_rem_le (label : List Char) (c : Char) (rest cap rem : List Char)
    (h : labelMatchAt label (c :: rest) = some (cap, rem)) :
    rem.length ≤ rest.length := by
  simp only [labelMatchAt] at h
  split_ifs at h
  have h2 : rem = ((((c :: rest).drop label.length).drop 1).dropWhile isPySpace).drop
      (((((c :: rest).drop label.length).drop 1).dropWhile isPySpace).takeWhile
        (fun d => d ≠ '\n')).length := by
    simp only [Option.some.injEq, Prod.mk.injEq] at h
    exact h.2.symm
  have h3 : rem.length ≤ ((((c :: rest).drop label.length).drop 1).dropWhile isPySpace).length := by
    rw [h2, List.length_drop]; exact Nat.sub_le _ _
  have h4 : ((((c :: rest).drop label.length).drop 1).dropWhile isPySpace).length ≤
      (((c :: rest).drop label.length).drop 1).length :=
    (List.dropWhile_sublist _).length_le
  have h5 : (((c :: rest).drop label.length).drop 1).length ≤ rest.length := by
    simp only [List.length_drop, List.length_cons]
    omega
  omega

/-- Worker for `labelCaptures`, structurally recursive on a fuel counter so
that the kernel can evaluate it; by `labelMatchAt_rem_le` every step strictly
shortens the text, so fuel equal to the text length never runs out. -/
def labelCapturesAux (label : List Char) : ℕ → List Char → List String
  | 0, _ => []
  | _, [] => []
  | fuel + 1, c :: rest =>
    match labelMatchAt label (c :: rest) with
    | some (cap, rem) => String.mk cap :: labelCapturesAux label fuel rem
    | none => labelCapturesAux label fuel rest

/-- All matches (in document order) of the regex `LABEL[：:]\s*(.+)` via
`re.findall`: scan left to right, and continue after the end of each
(non-overlapping) match. -/
def labelCaptures (label : List Char) (l : List Char) : List String :=
  labelCapturesAux label l.length l


/-- Strategy 2 and 3 filter: stripped value of length 3–50, containing a CJK
character, and not a full sentence (no `。！？`). -/
def labelQualifies (v : String) : Bool :=
  3 ≤ v.length && v.length ≤ 50 && hasCJK v && !hasSentencePunct v

/-- The generic pattern `^(.+?)[：:]\s*$` applied to one line: the earliest
colon with a non-empty prefix whose suffix is all whitespace; the capture is
the prefix. -/
def genericLabelValueAux (pre : List Char) : List Char → Option (List Char)
  | [] => none
  | c :: rest =>
    if (c = '：' ∨ c = ':') ∧ pre ≠ [] ∧ rest.all isPySpace then some pre
    else genericLabelValueAux (pre ++ [c]) rest

/-- The generic labeled-line pattern on one line. -/
def genericLabelValue (line : String) : Option String :=
  (genericLabelValueAux [] line.data).map String.mk

/-- The four explicit label patterns of `extract_title_from_content`, in
source order: 标题, 题目, 主题, 名称. -/
def titleLabelPatterns : List String := ["标题", "题目", "主题", "名称"]

/-- The first qualifying stripped capture of one label pattern over the whole
text (matches enumerated in document order). -/
def labelFirstQualifying (p : String) (text : String) : Option String :=
  (labelCaptures p.data text.data).findSome? fun cap =>
    let v := pyStrip cap
    if labelQualifies v then some v else none

/-- Strategy 2: try each label pattern over the whole text (all matches in
document order), then the generic `Title:`-style pattern line by line; the
first qualifying stripped value wins. -/
def titleStrategy2 (text : String) : Option String :=
  match titleLabelPatterns.findSome? (fun p => labelFirstQualifying p text) with
  | some v => some v
  | none =>
      (textLines text).findSome? fun line =>
        match genericLabelValue line with
        | some cap =>
            let v := pyStrip cap
            if labelQualifies v then some v else none
        | none => none

/-- Strategy 1: the first markdown-style header line whose value qualifies. -/
def titleStrategy1 (text : String) : Option String :=
  (textLines text).findSome? fun line =>
    match mdHeaderValue line with
    | some v => if mdQualifies v then some v else none
    | none => none

/-- `re.search(r'^\d+[、.]', line)`: a numbered-list marker. -/
def startsWithNumberedList (v : String) : Bool :=
  let ds := v.data.takeWhile Char.isDigit
  !ds.isEmpty &&
    (match v.data.drop ds.length with
     | c :: _ => c = '、' || c = '.'
     | [] => false)

/-- Strategy 3: among the first 10 lines, the first stripped line of length
3–50, containing a CJK character, not a sentence, and not starting with a
numbered-list marker. -/
def titleStrategy3 (text : String) : Option String :=
  ((textLines text).take 10).findSome? fun line =>
    let v := pyStrip line
    if 3 ≤ v.length && v.length ≤ 50 && hasCJK v && !hasSentencePunct v &&
        !startsWithNumberedList v then some v
    else none

/-- Worker for `removeLongDigitRuns`, structurally recursive on a fuel
counter (each step strictly shortens the text, so fuel equal to the text
length never runs out). -/
def removeLongDigitRunsAux : ℕ → List Char → List Char
  | 0, _ => []
  | _, [] => []
  | fuel + 1, c :: rest =>
    if c.isDigit then
      let run := c :: rest.takeWhile Char.isDigit
      let after := rest.dropWhile Char.isDigit
      (if 8 ≤ run.length then [] else run) ++ removeLongDigitRunsAux fuel after
    else c :: removeLongDigitRunsAux fuel rest

/-- Maximal digit runs of length ≥ 8 are removed (`re.sub(r'\d{8,}', '', s)`). -/
def removeLongDigitRuns (l : List Char) : List Char :=
  removeLongDigitRunsAux l.length l

/-- Strategy 4: filename cleanup — drop the extension (the part after the
last dot), remove date-like digit runs, turn separators into spaces, strip;
used only if the result has length ≥ 3. -/
def titleStrategy4 (filename : String) : Option String :=
  let base :=
    if filename.data.contains '.' then
      String.mk (filename.data.reverse.dropWhile (fun c => c ≠ '.') |>.drop 1 |>.reverse)
    else filename
  let cleaned := String.mk
    ((removeLongDigitRuns base.data).map fun c => if c = '_' ∨ c = '-' then ' ' else c)
  let v := pyStrip cleaned
  if v ≠ "" ∧ 3 ≤ v.length then some v else none

/-- `ChineseDocumentProcessor.extract_title_from_content`: strategies tried
in order — markdown header, labeled line (pattern-major), first meaningful
line, cleaned filename — otherwise the raw filename. -/
def extract_title_from_content (text filename : String) : String :=
  if pyStrip text = "" then filename
  else
    match titleStrategy1 text with
    | some t => t
    | none =>
      match titleStrategy2 text with
      | some t => t
      | none =>
        match titleStrategy3 text with
        | some t => t
        | none =>
          match titleStrategy4 filename with
          | some t => t
          | none => filename

/-! ## chinese_processor.py : process_documents -/

/-- One record of the document index (`document_index[doc_id]`).  `path` is the
source locator; the build is modelled on (filename, content) pairs, so the
path is the filename. -/
structure DocRec where
  path : String
  title : String
  filename : String
  tokens : ℕ
  title_tokens : ℕ
  length : ℕ
  term_frequencies : List (String × ℕ)
  chinese_chars : ℕ
  deriving DecidableEq

/-- The output of a build: the document index (association list keyed by doc
id, in build order) and the inverted index (term ↦ posting list of
(docId, frequency), in build order; a term is "in" the index iff its posting
list is non-empty, matching the `defaultdict`-built dict). -/
structure BuildOut where
  docIndex : List (ℕ × DocRec)
  invIndex : String → List (ℕ × ℕ)

/-- The per-document filters of `process_documents`: non-blank content, at
least 5 CJK characters, non-empty body tokens. -/
def passesFilters (seg : Seg) (d : String × String) : Bool :=
  pyStrip d.2 ≠ "" && 5 ≤ countCJK d.2 && preprocess_text seg d.2 ≠ []

/-- The combined token list: content tokens, then each title token replicated
5 times (the title-weight factor). -/
def combinedTokens (seg : Seg) (content title : String) : List String :=
  preprocess_text seg content ++
    (preprocess_text seg title).flatMap fun t => List.replicate 5 t

/-- The document record built for one qualifying source document. -/
def buildDoc (seg : Seg) (name content : String) : DocRec :=
  let extractedTitle := extract_title_from_content content name
  let contentToks := preprocess_text seg content
  let titleToks := preprocess_text seg extractedTitle
  let combined := combinedTokens seg content extractedTitle
  { path := name
    title := extractedTitle
    filename := name
    tokens := contentToks.length
    title_tokens := titleToks.length
    length := combined.length
    term_frequencies := counterList combined
    chinese_chars := countCJK content }

/-- Worker for `process_documents`: `i` is the enumeration counter
(`for doc_id, doc_path in enumerate(documents)` — the raw input position,
advanced for skipped documents too). -/
def processDocumentsAux (seg : Seg) (i : ℕ) : List (String × String) → BuildOut
  | [] => ⟨[], fun _ => []⟩
  | d :: ds =>
    let rest := processDocumentsAux seg (i + 1) ds
    if passesFilters seg d then
      let dr := buildDoc seg d.1 d.2
      ⟨(i, dr) :: rest.docIndex,
       fun t =>
         (match dr.term_frequencies.lookup t with
          | some c => [(i, c)]
          | none => []) ++ rest.invIndex t⟩
    else rest

/-- `ChineseDocumentProcessor.process_documents` over (filename, content)
pairs. -/
def process_documents (seg : Seg) (docs : List (String × String)) : BuildOut :=
  processDocumentsAux seg 0 docs

/-! ## chinese_bm25_search.py : ChineseBM25Search -/

/-- `ChineseBM25Search._calculate_avg_doc_length`: 0.0 for an empty index,
else the mean stored length. -/
noncomputable def calculate_avg_doc_length (docIndex : List (ℕ × DocRec)) : ℝ :=
  if docIndex = [] then 0
  else ((docIndex.map fun p => p.2.length).sum : ℕ) / (docIndex.length : ℕ)

/-- `ChineseBM25Search._calculate_idf`: 0.0 for a term absent from the
inverted index, else `max(0, log((N - df + 0.5) / (df + 0.5)))` with `N` the
document count and `df` the posting-list length. -/
noncomputable def calculate_idf (numDocs : ℕ) (inv : String → List (ℕ × ℕ))
    (t : String) : ℝ :=
  if inv t = [] then 0
  else
    let df : ℕ := (inv t).length
    max 0 (Real.log (((numDocs : ℝ) - (df : ℝ) + 1/2) / ((df : ℝ) + 1/2)))

/-- The per-term BM25 contribution of `search` (lines 193–196):
`idf * (tf*(k1+1) / (tf + k1*(1 - b + b*(docLen/avgDocLen)))) * queryFreq *
keywordBoost`. -/
noncomputable def termContribution (idf qf boost k1 b docLen avgLen tf : ℝ) : ℝ :=
  idf * (tf * (k1 + 1) / (tf + k1 * (1 - b + b * (docLen / avgLen)))) * qf * boost

/-- The base BM25 score of one candidate document in `search`: a sum over the
`Counter(query_terms)` items of the contribution of each query term present
in the document's term frequencies. -/
noncomputable def base_score (numDocs : ℕ) (inv : String → List (ℕ × ℕ))
    (avgLen : ℝ) (rec : DocRec) (queryTerms : List String) : ℝ :=
  ((counterList queryTerms).map fun tq =>
    match rec.term_frequencies.lookup tq.1 with
    | some tf =>
        termContribution (calculate_idf numDocs inv tq.1) (tq.2 : ℕ)
          ((ChineseConfig.getKeywordBoost tq.1 : ℚ) : ℝ)
          ChineseConfig.K1 ChineseConfig.B (rec.length : ℕ) avgLen (tf : ℕ)
    | none => 0).sum

/-- The keyword stacking term of `_calculate_title_match_score`: for every
query term (with multiplicity) in the keyword-boost allow-list that is also
in the title token set, add `KEYWORD_BOOSTS[term] * 2.0`. -/
def titleKeywordBonus (queryTerms titleTokens : List String) : ℚ :=
  (queryTerms.map fun t =>
    if t ∈ ChineseConfig.keywordBoostKeys ∧ t ∈ titleTokens then
      ChineseConfig.getKeywordBoost t * 2
    else 0).sum

/-- `ChineseBM25Search._calculate_title_match_score`. -/
def calculate_title_match_score (seg : Seg) (queryTerms : List String)
    (docTitle : String) : ℚ :=
  if queryTerms = [] ∨ docTitle = "" then 0
  else
    let titleTokens := preprocess_text seg docTitle
    if titleTokens = [] then 0
    else
      let querySet := firstDedup queryTerms
      let kb := titleKeywordBonus queryTerms titleTokens
      if querySet.all (fun t => t ∈ titleTokens) then
        ChineseConfig.TITLE_EXACT_MATCH_BONUS + kb
      else
        let inter := querySet.filter (fun t => t ∈ titleTokens)
        if inter ≠ [] then
          let ratio : ℚ := (inter.length : ℚ) / (querySet.length : ℚ)
          if 4/5 ≤ ratio then ChineseConfig.TITLE_PARTIAL_80 + kb
          else if 3/5 ≤ ratio then ChineseConfig.TITLE_PARTIAL_60 + kb
          else if 2/5 ≤ ratio then ChineseConfig.TITLE_PARTIAL_40 + kb
          else 2 + kb
        else if pyIn (pyLower (spaceJoin queryTerms)) (pyLower docTitle) then
          ChineseConfig.TITLE_SUBSTRING_MATCH_BONUS + kb
        else kb

/-- One entry of the result list of `search`. -/
structure ScoredResult where
  doc_id : ℕ
  score : ℝ
  base_score : ℝ
  title_bonus : ℝ
  path : String
  title : String
  length : ℕ
  chinese_chars : ℕ
  relevance : String

/-- The candidate document ids of `search`: the union over query terms of the
posting-list doc ids, enumerated in first-occurrence (insertion) order. -/
def candidateList (inv : String → List (ℕ × ℕ)) (queryTerms : List String) : List ℕ :=
  firstDedup (queryTerms.flatMap fun t => (inv t).map fun p => p.1)

/-- The scored record `search` builds for one candidate document. -/
noncomputable def scoreEntry (seg : Seg) (numDocs : ℕ) (inv : String → List (ℕ × ℕ))
    (avgLen : ℝ) (d : ℕ) (rec : DocRec) (queryTerms : List String) : ScoredResult :=
  let base := base_score numDocs inv avgLen rec queryTerms
  let bonus : ℝ := ((calculate_title_match_score seg queryTerms rec.title : ℚ) : ℝ)
  let total := base + bonus
  { doc_id := d
    score := total
    base_score := base
    title_bonus := bonus
    path := rec.path
    title := rec.title
    length := rec.length
    chinese_chars := rec.chinese_chars
    relevance := if 8 < total then "high" else if 3 < total then "medium" else "low" }

/-- The unsorted scored-document list of `search` (only candidates found in
the document index are scored; a missing id would raise `KeyError` in the
source and is unreachable for an index produced by a build), with the
`total_score >= 0` inclusion filter. -/
noncomputable def scoredDocs (seg : Seg) (docIndex : List (ℕ × DocRec))
    (inv : String → List (ℕ × ℕ)) (avgLen : ℝ) (queryTerms : List String) :
    List ScoredResult :=
  (candidateList inv queryTerms).filterMap fun d =>
    match docIndex.lookup d with
    | some rec =>
        let r := scoreEntry seg docIndex.length inv avgLen d rec queryTerms
        if 0 ≤ r.score then some r else none
    | none => none

/-- Stable insertion, descending by score: `x` goes before the first element
whose score is at most `x`'s. -/
noncomputable def insertScoreDesc (x : ScoredResult) :
    List ScoredResult → List ScoredResult
  | [] => [x]
  | y :: ys => if y.score ≤ x.score then x :: y :: ys else y :: insertScoreDesc x ys

/-- `scored_docs.sort(key=lambda x: x['score'], reverse=True)`: the stable
descending sort by total score (Python's sort is stable, so any stable sort
computes the same list). -/
noncomputable def sortScoreDesc : List ScoredResult → List ScoredResult
  | [] => []
  | x :: xs => insertScoreDesc x (sortScoreDesc xs)

/-- `ChineseBM25Search.search(query, limit)`.  `limit = none` is Python's
`None` (replaced by `DEFAULT_RESULTS_LIMIT`); the limit is then capped at
`MAX_RESULTS_LIMIT` by `min` and applied as the Python slice
`scored_docs[:limit]`. -/
noncomputable def search (seg : Seg) (docIndex : List (ℕ × DocRec))
    (inv : String → List (ℕ × ℕ)) (query : String) (limit : Option ℤ) :
    List ScoredResult :=
  let lim := min (limit.getD ChineseConfig.DEFAULT_RESULTS_LIMIT)
    ChineseConfig.MAX_RESULTS_LIMIT
  let queryTerms := preprocess_text seg query
  if queryTerms = [] then []
  else if candidateList inv queryTerms = [] then []
  else
    let avgLen := calculate_avg_doc_length docIndex
    pySliceTo lim (sortScoreDesc (scoredDocs seg docIndex inv avgLen queryTerms))

/-! ## Specification-side definitions (for the refinement claim C1) -/

/-- The idf of the specification, stated from the spec's words:
`idf(t) = max(0, ln((N − df(t) + 0.5) / (df(t) + 0.5)))` with `df(t)` the
posting-list length. -/
noncomputable def specIdf (numDocs df : ℕ) : ℝ :=
  max 0 (Real.log (((numDocs : ℝ) - (df : ℝ) + 1/2) / ((df : ℝ) + 1/2)))

/-- The base score as the specification words it: the sum over distinct
query tokens present in the document's term frequencies of
`idf(t) * queryTermCount(t) * tf(t)·(k1+1)/(tf(t) + k1·(1 − b + b·(docLen/avgDocLen))) * keywordBoost(t)`. -/
noncomputable def spec_base_score (numDocs : ℕ) (inv : String → List (ℕ × ℕ))
    (avgLen : ℝ) (rec : DocRec) (queryTerms : List String) : ℝ :=
  ((firstDedup queryTerms).map fun t =>
    match rec.term_frequencies.lookup t with
    | some tf =>
        specIdf numDocs (inv t).length * ((queryTerms.count t : ℕ) : ℝ) *
          ((tf : ℝ) * (ChineseConfig.K1 + 1) /
            ((tf : ℝ) + ChineseConfig.K1 *
              (1 - ChineseConfig.B + ChineseConfig.B * ((rec.length : ℕ) / avgLen)))) *
          ((ChineseConfig.getKeywordBoost t : ℚ) : ℝ)
    | none => 0).sum

/-! ## Concrete fixtures -/

/-- A concrete segmentation oracle for the closed examples: single-character
segmentation, CJK characters tagged as nouns and everything else as `x`
(unknown), a behaviour jieba can exhibit on out-of-vocabulary text. -/
def segDemo : Seg := fun s =>
  s.data.map fun c => (String.mk [c], if isCJK c then "n" else "x")

/-! ## General lemmas about the embedded utilities -/

theorem mem_firstDedup {α : Type} [DecidableEq α] (a : α) :
    ∀ l : List α, a ∈ firstDedup l ↔ a ∈ l := by
  intro l
  induction l with
  | nil => simp [firstDedup]
  | cons x xs ih =>
    simp only [firstDedup, List.mem_cons, List.mem_filter, ih]
    constructor
    · rintro (rfl | ⟨h1, h2⟩)
      · exact Or.inl rfl
      · exact Or.inr h1
    · rintro (rfl | h)
      · exact Or.inl rfl
      · by_cases hax : a = x
        · exact Or.inl hax
        · exact Or.inr ⟨h, by simpa using hax⟩

theorem nodup_firstDedup {α : Type} [DecidableEq α] :
    ∀ l : List α, (firstDedup l).Nodup := by
  intro l
  induction l with
  | nil => simp [firstDedup]
  | cons x xs ih =>
    simp only [firstDedup, List.nodup_cons]
    refine ⟨fun h => ?_, ih.filter _⟩
    have := (List.mem_filter.mp h).2
    simp at this

theorem firstDedup_nil_iff {α : Type} [DecidableEq α] (l : List α) :
    firstDedup l = [] ↔ l = [] := by
  cases l <;> simp [firstDedup]

theorem sum_map_filter_ne {α : Type} [DecidableEq α] (f : α → ℕ) (x : α) :
    ∀ L : List α, L.Nodup →
      ((L.filter (fun y => y ≠ x)).map f).sum + (if x ∈ L then f x else 0) =
        (L.map f).sum := by
  intro L
  induction L with
  | nil => simp
  | cons a L ih =>
    intro hnd
    rcases List.nodup_cons.mp hnd with ⟨haL, hndL⟩
    by_cases hax : a = x
    · subst hax
      have h1 : (a :: L).filter (fun y => y ≠ a) = L.filter (fun y => y ≠ a) := by
        simp [List.filter_cons]
      have h2 : L.filter (fun y => y ≠ a) = L := by
        apply List.filter_eq_self.mpr
        intro b hb
        simp only [decide_eq_true_eq]
        exact fun h => haL (h ▸ hb)
      rw [h1, h2, if_pos (List.mem_cons_self a L)]
      simp only [List.map_cons, List.sum_cons]
      omega
    · have h1 : (a :: L).filter (fun y => y ≠ x) = a :: L.filter (fun y => y ≠ x) := by
        simp [List.filter_cons, hax]
      have hx2 : (if x ∈ a :: L then f x else 0) = (if x ∈ L then f x else 0) := by
        by_cases hxL : x ∈ L
        · simp [hxL]
        · have : x ∉ a :: L := by
            simp only [List.mem_cons]
            rintro (rfl | h)
            · exact hax rfl
            · exact hxL h
          simp [this, hxL]
      rw [h1, hx2]
      simp only [List.map_cons, List.sum_cons]
      have := ih hndL
      omega

theorem sum_count_firstDedup (l : List String) :
    ((firstDedup l).map fun t => l.count t).sum = l.length := by
  induction l with
  | nil => simp [firstDedup]
  | cons x xs ih =>
    simp only [firstDedup, List.map_cons, List.sum_cons]
    have hcongr : ((firstDedup xs).filter (fun y => y ≠ x)).map
        (fun t => (x :: xs).count t) =
        ((firstDedup xs).filter (fun y => y ≠ x)).map (fun t => xs.count t) := by
      apply List.map_congr_left
      intro t ht
      have htx : t ≠ x := by simpa using (List.mem_filter.mp ht).2
      rw [List.count_cons_of_ne htx]
    rw [hcongr]
    have hsplit := sum_map_filter_ne (fun t => xs.count t) x
      (firstDedup xs) (nodup_firstDedup xs)
    simp only [] at hsplit
    have hcx : (x :: xs).count x = xs.count x + 1 := List.count_cons_self x xs
    by_cases hx : x ∈ xs
    · have hxfd : x ∈ firstDedup xs := (mem_firstDedup x xs).mpr hx
      rw [if_pos hxfd] at hsplit
      rw [ih] at hsplit
      rw [hcx]
      simp only [List.length_cons]
      omega
    · have hxfd : x ∉ firstDedup xs := fun h => hx ((mem_firstDedup x xs).mp h)
      rw [if_neg hxfd] at hsplit
      rw [ih] at hsplit
      have hc0 : xs.count x = 0 := List.count_eq_zero.mpr hx
      rw [hcx, hc0]
      simp only [List.length_cons]
      omega

theorem sum_counterList_values (l : List String) :
    ((counterList l).map Prod.snd).sum = l.length := by
  unfold counterList
  rw [List.map_map]
  exact sum_count_firstDedup l

theorem flatMap_replicate_length (l : List String) :
    (l.flatMap fun t => List.replicate 5 t).length = 5 * l.length := by
  induction l with
  | nil => simp
  | cons x xs ih =>
    simp only [List.flatMap_cons, List.length_append, List.length_replicate, ih,
      List.length_cons]
    ring

theorem pySliceTo_zero {α : Type} (l : List α) : pySliceTo 0 l = [] := by
  simp [pySliceTo]

theorem pySliceTo_sublist {α : Type} (n : ℤ) (l : List α) :
    (pySliceTo n l).Sublist l := by
  unfold pySliceTo
  split_ifs <;> exact List.take_sublist _ _

/-! ## Lemmas about the stable descending sort -/

theorem mem_insertScoreDesc (x z : ScoredResult) :
    ∀ l, z ∈ insertScoreDesc x l ↔ z = x ∨ z ∈ l := by
  intro l
  induction l with
  | nil => simp [insertScoreDesc]
  | cons y ys ih =>
    unfold insertScoreDesc
    split_ifs
    · simp [List.mem_cons]
    · simp only [List.mem_cons, ih]
      tauto

theorem pairwise_insertScoreDesc (x : ScoredResult) :
    ∀ l, List.Pairwise (fun a b => b.score ≤ a.score) l →
      List.Pairwise (fun a b => b.score ≤ a.score) (insertScoreDesc x l) := by
  intro l
  induction l with
  | nil => simp [insertScoreDesc]
  | cons y ys ih =>
    intro h
    rcases List.pairwise_cons.mp h with ⟨hy, hys⟩
    unfold insertScoreDesc
    split_ifs with hle
    · refine List.pairwise_cons.mpr ⟨?_, h⟩
      intro z hz
      rcases List.mem_cons.mp hz with rfl | hz2
      · exact hle
      · exact (hy z hz2).trans hle
    · refine List.pairwise_cons.mpr ⟨?_, ih hys⟩
      intro z hz
      rcases (mem_insertScoreDesc x z ys).mp hz with rfl | hz2
      · exact (not_le.mp hle).le
      · exact hy z hz2

theorem pairwise_sortScoreDesc :
    ∀ l, List.Pairwise (fun a b => b.score ≤ a.score) (sortScoreDesc l) := by
  intro l
  induction l with
  | nil => simp [sortScoreDesc]
  | cons x xs ih => exact pairwise_insertScoreDesc x _ ih

/-! ## Nonnegativity of the scoring pipeline -/

theorem getKeywordBoost_nonneg (t : String) : 0 ≤ ChineseConfig.getKeywordBoost t := by
  unfold ChineseConfig.getKeywordBoost
  split_ifs <;> norm_num

theorem titleKeywordBonus_nonneg (q T : List String) : 0 ≤ titleKeywordBonus q T := by
  unfold titleKeywordBonus
  apply List.sum_nonneg
  intro x hx
  rcases List.mem_map.mp hx with ⟨t, _, rfl⟩
  split_ifs
  · have := getKeywordBoost_nonneg t
    linarith
  · exact le_refl 0

theorem calculate_title_match_score_nonneg (seg : Seg) (q : List String) (title : String) :
    0 ≤ calculate_title_match_score seg q title := by
  unfold calculate_title_match_score ChineseConfig.TITLE_EXACT_MATCH_BONUS
    ChineseConfig.TITLE_SUBSTRING_MATCH_BONUS ChineseConfig.TITLE_PARTIAL_80
    ChineseConfig.TITLE_PARTIAL_60 ChineseConfig.TITLE_PARTIAL_40
  have hkb := titleKeywordBonus_nonneg q (preprocess_text seg title)
  dsimp only
  split_ifs <;> linarith

theorem calculate_idf_nonneg (n : ℕ) (inv : String → List (ℕ × ℕ)) (t : String) :
    0 ≤ calculate_idf n inv t := by
  unfold calculate_idf
  split_ifs
  · exact le_refl 0
  · exact le_max_left 0 _

theorem calculate_avg_doc_length_nonneg (d : List (ℕ × DocRec)) :
    0 ≤ calculate_avg_doc_length d := by
  unfold calculate_avg_doc_length
  split_ifs
  · exact le_refl 0
  · positivity

theorem termContribution_nonneg (idf qf boost k1 b docLen avgLen tf : ℝ)
    (hidf : 0 ≤ idf) (hqf : 0 ≤ qf) (hboost : 0 ≤ boost) (hk1 : 0 ≤ k1)
    (hb0 : 0 ≤ b) (hb1 : b ≤ 1) (hdl : 0 ≤ docLen) (havg : 0 ≤ avgLen)
    (htf : 0 ≤ tf) :
    0 ≤ termContribution idf qf boost k1 b docLen avgLen tf := by
  unfold termContribution
  have hr : 0 ≤ docLen / avgLen := div_nonneg hdl havg
  have hden : 0 ≤ tf + k1 * (1 - b + b * (docLen / avgLen)) := by
    have h1 : 0 ≤ 1 - b + b * (docLen / avgLen) := by nlinarith
    nlinarith
  have hnum : 0 ≤ tf * (k1 + 1) := by nlinarith
  have hfrac : 0 ≤ tf * (k1 + 1) / (tf + k1 * (1 - b + b * (docLen / avgLen))) :=
    div_nonneg hnum hden
  have := mul_nonneg (mul_nonneg (mul_nonneg hidf hfrac) hqf) hboost
  linarith

theorem base_score_nonneg (n : ℕ) (inv : String → List (ℕ × ℕ)) (avgLen : ℝ)
    (rec : DocRec) (q : List String) (havg : 0 ≤ avgLen) :
    0 ≤ base_score n inv avgLen rec q := by
  unfold base_score
  apply List.sum_nonneg
  intro x hx
  rcases List.mem_map.mp hx with ⟨tq, _, rfl⟩
  cases h : rec.term_frequencies.lookup tq.1 with
  | none => simp [h]
  | some tf =>
    simp only [h]
    apply termContribution_nonneg
    · exact calculate_idf_nonneg _ _ _
    · positivity
    · exact_mod_cast getKeywordBoost_nonneg tq.1
    · unfold ChineseConfig.K1; norm_num
    · unfold ChineseConfig.B; norm_num
    · unfold ChineseConfig.B; norm_num
    · positivity
    · exact havg
    · positivity

theorem scoreEntry_score_nonneg (seg : Seg) (n : ℕ) (inv : String → List (ℕ × ℕ))
    (avgLen : ℝ) (d : ℕ) (rec : DocRec) (q : List String) (havg : 0 ≤ avgLen) :
    0 ≤ (scoreEntry seg n inv avgLen d rec q).score := by
  unfold scoreEntry
  have h1 := base_score_nonneg n inv avgLen rec q havg
  have h2 := calculate_title_match_score_nonneg seg q rec.title
  have h2R : (0 : ℝ) ≤ ((calculate_title_match_score seg q rec.title : ℚ) : ℝ) := by
    exact_mod_cast h2
  simpa using add_nonneg h1 h2R

/-- Since every total score is nonnegative (for a nonnegative average
length), the `total_score >= 0` inclusion filter of `search` never excludes
a candidate. -/
theorem scoredDocs_eq (seg : Seg) (docIdx : List (ℕ × DocRec))
    (inv : String → List (ℕ × ℕ)) (avgLen : ℝ) (qts : List String)
    (havg : 0 ≤ avgLen) :
    scoredDocs seg docIdx inv avgLen qts =
      (candidateList inv qts).filterMap fun d =>
        (docIdx.lookup d).map fun rec =>
          scoreEntry seg docIdx.length inv avgLen d rec qts := by
  unfold scoredDocs
  congr 1
  funext d
  cases h : docIdx.lookup d with
  | none => simp [h]
  | some rec =>
    simp only [h]
    rw [if_pos (scoreEntry_score_nonneg seg docIdx.length inv avgLen d rec qts havg)]
    rfl

/-! ## Lemmas about the build pipeline -/

theorem mem_of_lookup {α β : Type} [BEq α] [LawfulBEq α] :
    ∀ {l : List (α × β)} {a : α} {b : β}, l.lookup a = some b → (a, b) ∈ l := by
  intro l
  induction l with
  | nil => intro a b h; simp [List.lookup] at h
  | cons x xs ih =>
    intro a b h
    rcases x with ⟨k, v⟩
    rw [List.lookup_cons] at h
    cases hbeq : (a == k) with
    | false =>
      rw [hbeq] at h
      dsimp only at h
      exact List.mem_cons_of_mem _ (ih h)
    | true =>
      rw [hbeq] at h
      dsimp only at h
      injection h with h2
      have h1 : a = k := eq_of_beq hbeq
      rw [h1, ← h2]
      exact List.mem_cons_self _ _

theorem mem_docIndexAux (seg : Seg) :
    ∀ (docs : List (String × String)) (i : ℕ) (p : ℕ × DocRec),
      p ∈ (processDocumentsAux seg i docs).docIndex →
      ∃ d ∈ docs, passesFilters seg d = true ∧ p.2 = buildDoc seg d.1 d.2 := by
  intro docs
  induction docs with
  | nil => intro i p h; simp [processDocumentsAux] at h
  | cons d ds ih =>
    intro i p h
    unfold processDocumentsAux at h
    by_cases hp : passesFilters seg d
    · rw [if_pos hp] at h
      dsimp only at h
      rcases List.mem_cons.mp h with rfl | h2
      · exact ⟨d, List.mem_cons_self _ _, hp, rfl⟩
      · obtain ⟨d2, hd2, hp2, he⟩ := ih (i + 1) p h2
        exact ⟨d2, List.mem_cons_of_mem _ hd2, hp2, he⟩
    · rw [if_neg hp] at h
      obtain ⟨d2, hd2, hp2, he⟩ := ih (i + 1) p h
      exact ⟨d2, List.mem_cons_of_mem _ hd2, hp2, he⟩

theorem buildDoc_length_split (seg : Seg) (name content : String) :
    (buildDoc seg name content).length =
      (buildDoc seg name content).tokens + 5 * (buildDoc seg name content).title_tokens := by
  unfold buildDoc combinedTokens
  dsimp only
  rw [List.length_append, flatMap_replicate_length]

theorem buildDoc_sum_tf (seg : Seg) (name content : String) :
    (((buildDoc seg name content).term_frequencies).map Prod.snd).sum =
      (buildDoc seg name content).length := by
  unfold buildDoc
  dsimp only
  rw [sum_counterList_values]

theorem buildDoc_length_pos (seg : Seg) (name content : String)
    (h : preprocess_text seg content ≠ []) :
    1 ≤ (buildDoc seg name content).length := by
  unfold buildDoc combinedTokens
  dsimp only
  rw [List.length_append]
  have := List.length_pos.mpr h
  omega

theorem passesFilters_tokens (seg : Seg) (d : String × String)
    (h : passesFilters seg d = true) : preprocess_text seg d.2 ≠ [] := by
  unfold passesFilters at h
  simp only [Bool.and_eq_true, decide_eq_true_eq] at h
  exact h.2

theorem docIndex_length_ge_one (seg : Seg) (docs : List (String × String))
    (i : ℕ) (p : ℕ × DocRec)
    (h : p ∈ (processDocumentsAux seg i docs).docIndex) : 1 ≤ p.2.length := by
  obtain ⟨d, _, hpass, he⟩ := mem_docIndexAux seg docs i p h
  rw [he]
  exact buildDoc_length_pos seg d.1 d.2 (passesFilters_tokens seg d hpass)

theorem invIndexAux_ne_nil (seg : Seg) :
    ∀ (docs : List (String × String)) (i : ℕ) (t : String),
      (processDocumentsAux seg i docs).invIndex t ≠ [] →
      (processDocumentsAux seg i docs).docIndex ≠ [] := by
  intro docs
  induction docs with
  | nil => intro i t h; simp [processDocumentsAux] at h
  | cons d ds ih =>
    intro i t h
    unfold processDocumentsAux at h ⊢
    by_cases hp : passesFilters seg d
    · rw [if_pos hp] at h ⊢
      simp
    · rw [if_neg hp] at h ⊢
      exact ih (i + 1) t h

theorem calculate_avg_doc_length_pos (d : List (ℕ × DocRec))
    (hne : d ≠ []) (hlen : ∀ p ∈ d, 1 ≤ p.2.length) :
    0 < calculate_avg_doc_length d := by
  unfold calculate_avg_doc_length
  rw [if_neg hne]
  apply div_pos
  · have h1 : 1 ≤ (d.map fun p => p.2.length).sum := by
      cases d with
      | nil => exact absurd rfl hne
      | cons p ps =>
        have := hlen p (List.mem_cons_self _ _)
        simp only [List.map_cons, List.sum_cons]
        omega
    exact_mod_cast Nat.lt_of_lt_of_le Nat.zero_lt_one h1
  · have := List.length_pos.mpr hne
    exact_mod_cast this

theorem candidateList_ne_nil (inv : String → List (ℕ × ℕ)) (qts : List String)
    (h : candidateList inv qts ≠ []) : ∃ t ∈ qts, inv t ≠ [] := by
  unfold candidateList at h
  have h2 : qts.flatMap (fun t => (inv t).map fun p => p.1) ≠ [] := by
    intro hc
    rw [hc] at h
    exact h (by simp [firstDedup])
  rcases List.exists_mem_of_ne_nil _ h2 with ⟨x, hx⟩
  rcases List.mem_flatMap.mp hx with ⟨t, ht, hxt⟩
  refine ⟨t, ht, fun hnil => ?_⟩
  rw [hnil] at hxt
  simp at hxt

/-! ## Claim theorems -/

/-- The code's base score equals the spec's formula whenever every term of
the document record is present in the inverted index. -/
theorem base_score_eq_spec_of_consistent (numDocs : ℕ) (inv : String → List (ℕ × ℕ))
    (avgLen : ℝ) (rec : DocRec) (qts : List String)
    (hconsist : ∀ t c, (t, c) ∈ rec.term_frequencies → inv t ≠ []) :
    base_score numDocs inv avgLen rec qts = spec_base_score numDocs inv avgLen rec qts := by
  unfold base_score spec_base_score counterList
  rw [List.map_map]
  congr 1
  apply List.map_congr_left
  intro t ht
  simp only [Function.comp]
  cases h : rec.term_frequencies.lookup t with
  | none => simp [h]
  | some tf =>
    simp only [h]
    have hne := hconsist t tf (mem_of_lookup h)
    unfold termContribution calculate_idf specIdf
    rw [if_neg hne]
    ring

theorem lookup_isSome_of_mem {α β : Type} [BEq α] [LawfulBEq α] :
    ∀ {l : List (α × β)} {a : α} {b : β}, (a, b) ∈ l → ∃ c, l.lookup a = some c := by
  intro l
  induction l with
  | nil => intro a b h; simp at h
  | cons x xs ih =>
    intro a b h
    rcases x with ⟨k, v⟩
    rw [List.lookup_cons]
    by_cases hbeq : (a == k) = true
    · rw [hbeq]
      exact ⟨v, rfl⟩
    · have hbeq2 : (a == k) = false := by
        cases hb : (a == k)
        · rfl
        · exact absurd hb hbeq
      rw [hbeq2]
      dsimp only
      rcases List.mem_cons.mp h with heq | hmem
      · exfalso
        apply hbeq
        rw [Prod.mk.injEq] at heq
        rw [heq.1]
        exact beq_self_eq_true k
      · exact ih hmem

/-- Every term of a built document record has a non-empty posting list in the
inverted index of the same build. -/
theorem invIndex_consistent (seg : Seg) :
    ∀ (docs : List (String × String)) (j i : ℕ) (dr : DocRec) (t : String) (c : ℕ),
      (i, dr) ∈ (processDocumentsAux seg j docs).docIndex →
      (t, c) ∈ dr.term_frequencies →
      (processDocumentsAux seg j docs).invIndex t ≠ [] := by
  intro docs
  induction docs with
  | nil => intro j i dr t c h _; simp [processDocumentsAux] at h
  | cons d ds ih =>
    intro j i dr t c h htc
    unfold processDocumentsAux at h ⊢
    by_cases hp : passesFilters seg d
    · rw [if_pos hp] at h ⊢
      dsimp only at h ⊢
      rcases List.mem_cons.mp h with heq | hmem
      · have hdr : dr = buildDoc seg d.1 d.2 := congrArg Prod.snd heq
        rw [hdr] at htc
        obtain ⟨c2, hc2⟩ := lookup_isSome_of_mem htc
        rw [hc2]
        simp
      · have := ih (j + 1) i dr t c hmem htc
        intro hnil
        rcases List.append_eq_nil.mp hnil with ⟨_, h2⟩
        exact this h2
    · rw [if_neg hp] at h ⊢
      exact ih (j + 1) i dr t c h htc

/-- C1: for every built index, every query token list, every average length
and every document record of the build, the base score computed by `search`
equals the specification's sum over distinct query tokens present in the
document's term frequencies of
`idf(t) * queryTermCount(t) * tf(t)·(k1+1)/(tf(t) + k1·(1 − b + b·(docLen/avgDocLen))) * keywordBoost(t)`
with `idf(t) = max(0, ln((N − df(t) + 0.5)/(df(t) + 0.5)))`, `N` the document
count and `df(t)` the posting-list length. -/
theorem C1_base_score_matches_spec (seg : Seg) (docs : List (String × String))
    (i : ℕ) (dr : DocRec) (qts : List String) (avgLen : ℝ)
    (h : (i, dr) ∈ (process_documents seg docs).docIndex) :
    base_score (process_documents seg docs).docIndex.length
        (process_documents seg docs).invIndex avgLen dr qts =
      spec_base_score (process_documents seg docs).docIndex.length
        (process_documents seg docs).invIndex avgLen dr qts :=
  base_score_eq_spec_of_consistent _ _ _ _ _
    (fun t c htc => invIndex_consistent seg docs 0 i dr t c h htc)

def recC6 : DocRec :=
  { path := "b.txt", title := "藕汤筒骨煨制浓香", filename := "b.txt",
    tokens := 8, title_tokens := 8, length := 48,
    term_frequencies := [("藕", 6), ("汤", 6), ("筒", 6), ("骨", 6), ("煨", 6),
      ("制", 6), ("浓", 6), ("香", 6)],
    chinese_chars := 8 }

/-- Witness for C1 on a concrete one-document build. -/
theorem C1_base_score_matches_spec_witness :
    base_score (process_documents segDemo [("b.txt", "藕汤筒骨煨制浓香")]).docIndex.length
        (process_documents segDemo [("b.txt", "藕汤筒骨煨制浓香")]).invIndex 1 recC6 ["藕"] =
      spec_base_score
        (process_documents segDemo [("b.txt", "藕汤筒骨煨制浓香")]).docIndex.length
        (process_documents segDemo [("b.txt", "藕汤筒骨煨制浓香")]).invIndex 1 recC6 ["藕"] :=
  C1_base_score_matches_spec segDemo [("b.txt", "藕汤筒骨煨制浓香")] 0 recC6 ["藕"] 1
    (by decide)

/-- C7: with every factor fixed and nonnegative (and a positive `k1`,
`b ∈ [0,1]`, nonnegative document length, positive average length), the
per-term BM25 contribution of `search` is monotonically non-decreasing in the
term frequency. -/
theorem C7_termContribution_monotone (idf qf boost k1 b docLen avgLen tf1 tf2 : ℝ)
    (hidf : 0 ≤ idf) (hqf : 0 ≤ qf) (hboost : 0 ≤ boost) (hk1 : 0 < k1)
    (hb0 : 0 ≤ b) (hb1 : b ≤ 1) (hdl : 0 ≤ docLen) (havg : 0 < avgLen)
    (htf1 : 0 ≤ tf1) (h12 : tf1 ≤ tf2) :
    termContribution idf qf boost k1 b docLen avgLen tf1 ≤
      termContribution idf qf boost k1 b docLen avgLen tf2 := by
  unfold termContribution
  set K := k1 * (1 - b + b * (docLen / avgLen)) with hK
  have hKnn : 0 ≤ K := by
    have hr : 0 ≤ docLen / avgLen := div_nonneg hdl havg.le
    have hinner : 0 ≤ 1 - b + b * (docLen / avgLen) := by nlinarith
    rw [hK]
    exact mul_nonneg hk1.le hinner
  have hfrac : tf1 * (k1 + 1) / (tf1 + K) ≤ tf2 * (k1 + 1) / (tf2 + K) := by
    rcases eq_or_lt_of_le (by linarith : (0 : ℝ) ≤ tf1 + K) with h0 | hpos
    · have htf0 : tf1 = 0 := by linarith
      have hK0 : K = 0 := by linarith
      rw [htf0, hK0]
      simp only [zero_mul, zero_div, zero_add, add_zero]
      rcases eq_or_lt_of_le (htf1.trans h12) with h2 | h2
    -- tf2 = 0 or tf2 > 0
      · rw [← h2]
        simp
      · apply div_nonneg _ h2.le
        nlinarith
    · have hpos2 : 0 < tf2 + K := by linarith
      rw [div_le_div_iff₀ hpos hpos2]
      have hmul : K * tf1 ≤ K * tf2 := mul_le_mul_of_nonneg_left h12 hKnn
      nlinarith
  apply mul_le_mul_of_nonneg_right _ hboost
  apply mul_le_mul_of_nonneg_right _ hqf
  exact mul_le_mul_of_nonneg_left hfrac hidf

/-- Witness for C7 at concrete values (the configured `k1 = 1.5`, `b = 0.6`,
document length 5, average length 5, `tf` raised from 1 to 2). -/
theorem C7_termContribution_monotone_witness :
    termContribution 1 1 1 (3/2) (3/5) 5 5 1 ≤ termContribution 1 1 1 (3/2) (3/5) 5 5 2 :=
  C7_termContribution_monotone 1 1 1 (3/2) (3/5) 5 5 1 2
    (by norm_num) (by norm_num) (by norm_num) (by norm_num) (by norm_num)
    (by norm_num) (by norm_num) (by norm_num) (by norm_num) (by norm_num)

/-- C9: a query that tokenizes to no terms makes `search` return the empty
list (the check happens before any scoring). -/
theorem C9_empty_tokens_empty_result (seg : Seg) (docIdx : List (ℕ × DocRec))
    (inv : String → List (ℕ × ℕ)) (lim : Option ℤ) (q : String)
    (h : preprocess_text seg q = []) :
    search seg docIdx inv q lim = [] := by
  unfold search
  rw [h]
  simp

/-- Witness for C9: a query made only of stop-words (的 and 了 are in the
stop-word set, so single-character segmentation leaves no tokens). -/
theorem C9_empty_tokens_empty_result_witness :
    search segDemo [] (fun _ => []) "的的了了" none = [] :=
  C9_empty_tokens_empty_result segDemo [] (fun _ => []) none "的的了了" (by decide)

/-- C3 (amended): the result list of `search` is sorted by total score
descending (the sort is stable over the candidate enumeration order; the
claim's ascending-doc-id tie-break is refuted separately). -/
theorem C3_results_sorted_desc (seg : Seg) (docIdx : List (ℕ × DocRec))
    (inv : String → List (ℕ × ℕ)) (q : String) (lim : Option ℤ) :
    List.Pairwise (fun a b => b.score ≤ a.score) (search seg docIdx inv q lim) := by
  unfold search
  dsimp only
  split_ifs
  · exact List.Pairwise.nil
  · exact List.Pairwise.nil
  · exact (pairwise_sortScoreDesc _).sublist (pySliceTo_sublist _ _)

/-- C4 (amended): `search` caps the limit above at `MAX_RESULTS_LIMIT` for
nonnegative limits, but has no lower clamp: an explicit limit of 0 yields the
empty list. -/
theorem C4_limit_cap_no_lower_clamp (seg : Seg) (docIdx : List (ℕ × DocRec))
    (inv : String → List (ℕ × ℕ)) (q : String) (lim : ℤ) :
    search seg docIdx inv q (some 0) = [] ∧
    (0 ≤ lim → (search seg docIdx inv q (some lim)).length ≤
      (min lim ChineseConfig.MAX_RESULTS_LIMIT).toNat) := by
  constructor
  · unfold search
    simp only [Option.getD_some]
    have hmin : min (0 : ℤ) ChineseConfig.MAX_RESULTS_LIMIT = 0 := by
      unfold ChineseConfig.MAX_RESULTS_LIMIT
      norm_num
    rw [hmin]
    split_ifs
    · rfl
    · rfl
    · exact pySliceTo_zero _
  · intro hl
    unfold search
    simp only [Option.getD_some]
    split_ifs
    · simp
    · simp
    · unfold pySliceTo
      rw [if_pos (le_min hl (by unfold ChineseConfig.MAX_RESULTS_LIMIT; norm_num))]
      rw [List.length_take]
      exact min_le_left _ _

/-- Witness for C4 (amended) at a nonnegative concrete limit. -/
theorem C4_limit_cap_no_lower_clamp_witness :
    search segDemo [] (fun _ => []) "苹" (some 0) = [] ∧
    (search segDemo [] (fun _ => []) "苹" (some 7)).length ≤
      (min 7 ChineseConfig.MAX_RESULTS_LIMIT).toNat :=
  ⟨(C4_limit_cap_no_lower_clamp segDemo [] (fun _ => []) "苹" 7).1,
   (C4_limit_cap_no_lower_clamp segDemo [] (fun _ => []) "苹" 7).2 (by norm_num)⟩

/-- C10: for every built index, whenever the candidate set of a query is
non-empty the document index is non-empty, every stored length is at least 1,
and the average document length is strictly positive (so the division
`doc_length / avg_doc_length` in scoring is never a division by zero). -/
theorem C10_avg_doc_length_pos (seg : Seg) (docs : List (String × String)) (q : String)
    (h : candidateList (process_documents seg docs).invIndex (preprocess_text seg q) ≠ []) :
    (process_documents seg docs).docIndex ≠ [] ∧
    (∀ p ∈ (process_documents seg docs).docIndex, 1 ≤ p.2.length) ∧
    0 < calculate_avg_doc_length (process_documents seg docs).docIndex := by
  obtain ⟨t, _, hne⟩ := candidateList_ne_nil _ _ h
  have hdoc : (process_documents seg docs).docIndex ≠ [] :=
    invIndexAux_ne_nil seg docs 0 t hne
  have hlen : ∀ p ∈ (process_documents seg docs).docIndex, 1 ≤ p.2.length :=
    fun p hp => docIndex_length_ge_one seg docs 0 p hp
  exact ⟨hdoc, hlen, calculate_avg_doc_length_pos _ hdoc hlen⟩

/-- Witness for C10 on a one-document build with a matching query. -/
theorem C10_avg_doc_length_pos_witness :
    (process_documents segDemo [("b.txt", "藕汤筒骨煨制浓香")]).docIndex ≠ [] ∧
    (∀ p ∈ (process_documents segDemo [("b.txt", "藕汤筒骨煨制浓香")]).docIndex,
      1 ≤ p.2.length) ∧
    0 < calculate_avg_doc_length
      (process_documents segDemo [("b.txt", "藕汤筒骨煨制浓香")]).docIndex :=
  C10_avg_doc_length_pos segDemo [("b.txt", "藕汤筒骨煨制浓香")] "藕" (by decide)

/-- C6: every document record of a build satisfies
`sum(termFrequencies.values()) = length` and
`length = contentTokens + 5 * titleTokens`. -/
theorem C6_length_invariants (seg : Seg) (docs : List (String × String))
    (i : ℕ) (dr : DocRec)
    (h : (i, dr) ∈ (process_documents seg docs).docIndex) :
    ((dr.term_frequencies).map Prod.snd).sum = dr.length ∧
    dr.length = dr.tokens + 5 * dr.title_tokens := by
  obtain ⟨d, _, _, he⟩ := mem_docIndexAux seg docs 0 (i, dr) h
  dsimp only at he
  rw [he]
  exact ⟨buildDoc_sum_tf _ _ _, buildDoc_length_split _ _ _⟩

/-- Witness for C6 on the record built from a one-document corpus. -/
theorem C6_length_invariants_witness :
    ((recC6.term_frequencies).map Prod.snd).sum = recC6.length ∧
    recC6.length = recC6.tokens + 5 * recC6.title_tokens :=
  C6_length_invariants segDemo [("b.txt", "藕汤筒骨煨制浓香")] 0 recC6 (by decide)

/-- The doc ids a build assigns, generalizing over the enumeration start. -/
theorem docIndexAux_map_fst (seg : Seg) :
    ∀ (docs : List (String × String)) (i : ℕ),
      (processDocumentsAux seg i docs).docIndex.map Prod.fst =
        ((List.enumFrom i docs).filter fun p => passesFilters seg p.2).map Prod.fst := by
  intro docs
  induction docs with
  | nil => intro i; simp [processDocumentsAux]
  | cons d ds ih =>
    intro i
    unfold processDocumentsAux
    have henum : List.enumFrom i (d :: ds) = (i, d) :: List.enumFrom (i + 1) ds := rfl
    rw [henum, List.filter_cons]
    by_cases hp : passesFilters seg d
    · rw [if_pos hp]
      dsimp only
      rw [List.map_cons]
      have : (passesFilters seg (i, d).2) = true := hp
      rw [this]
      simp only [if_true, List.map_cons]
      rw [ih]
    · rw [if_neg hp]
      have : (passesFilters seg (i, d).2) = false := by
        simpa using hp
      rw [this]
      simp only [Bool.false_eq_true, if_false]
      exact ih (i + 1)

/-- C5 (amended): the doc ids of a build are exactly the raw input positions
of the documents that passed all filters — `enumerate` advances the id over
skipped documents too, so ids are not re-packed to be contiguous. -/
theorem C5_doc_ids_are_raw_positions (seg : Seg) (docs : List (String × String)) :
    (process_documents seg docs).docIndex.map Prod.fst =
      ((List.enumFrom 0 docs).filter fun p => passesFilters seg p.2).map Prod.fst :=
  docIndexAux_map_fst seg docs 0

/-- Counterexample to C5 as stated: with a first document skipped (no CJK
content) and a second that qualifies, the surviving document keeps raw id 1,
so the id list is `[1]`, not the dense `0..K-1` range `[0]`. -/
theorem C5_counterexample :
    (process_documents segDemo
      [("a.txt", "hello"), ("b.txt", "藕汤筒骨煨制浓香")]).docIndex.map Prod.fst = [1] ∧
    (process_documents segDemo
      [("a.txt", "hello"), ("b.txt", "藕汤筒骨煨制浓香")]).docIndex.map Prod.fst ≠
      List.range (process_documents segDemo
        [("a.txt", "hello"), ("b.txt", "藕汤筒骨煨制浓香")]).docIndex.length := by
  constructor
  · decide
  · decide

/-- C8 (amended): candidate tiers are tried in order, but within the
labeled-line tier the patterns are tried pattern-major (标题 before 题目,
主题, 名称 and the generic pattern): whenever no markdown header qualifies
and the 标题 pattern has a qualifying match, that match is the title — even
if a different label occurs earlier in the document. -/
theorem C8_label_patterns_tried_pattern_major (text filename v : String)
    (h1 : pyStrip text ≠ "")
    (h2 : titleStrategy1 text = none)
    (h3 : labelFirstQualifying "标题" text = some v) :
    extract_title_from_content text filename = v := by
  unfold extract_title_from_content
  rw [if_neg h1, h2]
  have hs2 : titleStrategy2 text = some v := by
    unfold titleStrategy2 titleLabelPatterns
    rw [List.findSome?_cons]
    rw [h3]
  rw [hs2]

/-- Witness for C8 (amended): the 题目-labeled line comes first in the text,
yet the 标题-labeled value is extracted. -/
theorem C8_label_patterns_tried_pattern_major_witness :
    extract_title_from_content "题目：藕汤做法\n标题：排骨汤谱" "f.txt" = "排骨汤谱" :=
  C8_label_patterns_tried_pattern_major "题目：藕汤做法\n标题：排骨汤谱" "f.txt"
    "排骨汤谱" (by decide) (by decide) (by decide)

/-- Counterexample to C8 as stated: the document's first labeled line is the
qualifying 题目 line "藕汤做法", but extraction returns the later 标题 line
"排骨汤谱" — the earliest-in-document labeled candidate does not win. -/
theorem C8_counterexample :
    textLines "题目：藕汤做法\n标题：排骨汤谱" = ["题目：藕汤做法", "标题：排骨汤谱"] ∧
    labelFirstQualifying "题目" "题目：藕汤做法\n标题：排骨汤谱" = some "藕汤做法" ∧
    extract_title_from_content "题目：藕汤做法\n标题：排骨汤谱" "f.txt" = "排骨汤谱" ∧
    ("排骨汤谱" : String) ≠ "藕汤做法" := by
  refine ⟨by decide, by decide, by decide, by decide⟩

theorem preprocess_text_empty (seg : Seg) : preprocess_text seg "" = [] := rfl

/-- C2 (amended): the title bonus follows the claimed branch structure with
keyword stacking on top, except that an empty query, an empty title, or a
title that tokenizes to no tokens short-circuits to 0 — in particular the
substring branch is never reached when the title has no tokens. -/
theorem C2_title_bonus_branches (seg : Seg) (qts : List String) (title : String) :
    (qts = [] ∨ preprocess_text seg title = [] →
      calculate_title_match_score seg qts title = 0) ∧
    (qts ≠ [] → preprocess_text seg title ≠ [] →
      ((∀ t ∈ qts, t ∈ preprocess_text seg title) →
        calculate_title_match_score seg qts title =
          ChineseConfig.TITLE_EXACT_MATCH_BONUS +
            titleKeywordBonus qts (preprocess_text seg title)) ∧
      ((∃ t ∈ qts, t ∈ preprocess_text seg title) →
        ¬(∀ t ∈ qts, t ∈ preprocess_text seg title) →
        calculate_title_match_score seg qts title =
          (if 4/5 ≤ (((firstDedup qts).filter fun t =>
                t ∈ preprocess_text seg title).length : ℚ) / ((firstDedup qts).length : ℚ)
            then ChineseConfig.TITLE_PARTIAL_80
            else if 3/5 ≤ (((firstDedup qts).filter fun t =>
                t ∈ preprocess_text seg title).length : ℚ) / ((firstDedup qts).length : ℚ)
              then ChineseConfig.TITLE_PARTIAL_60
              else if 2/5 ≤ (((firstDedup qts).filter fun t =>
                  t ∈ preprocess_text seg title).length : ℚ) / ((firstDedup qts).length : ℚ)
                then ChineseConfig.TITLE_PARTIAL_40
                else 2) + titleKeywordBonus qts (preprocess_text seg title)) ∧
      ((∀ t ∈ qts, t ∉ preprocess_text seg title) →
        pyIn (pyLower (spaceJoin qts)) (pyLower title) →
        calculate_title_match_score seg qts title =
          ChineseConfig.TITLE_SUBSTRING_MATCH_BONUS +
            titleKeywordBonus qts (preprocess_text seg title)) ∧
      ((∀ t ∈ qts, t ∉ preprocess_text seg title) →
        ¬pyIn (pyLower (spaceJoin qts)) (pyLower title) →
        calculate_title_match_score seg qts title =
          titleKeywordBonus qts (preprocess_text seg title))) := by
  have hallIff : (((firstDedup qts).all fun t =>
      decide (t ∈ preprocess_text seg title)) = true) ↔
      (∀ t ∈ qts, t ∈ preprocess_text seg title) := by
    rw [List.all_eq_true]
    constructor
    · intro h t ht
      simpa using h t ((mem_firstDedup t qts).mpr ht)
    · intro h t ht
      simpa using h t ((mem_firstDedup t qts).mp ht)
  have hinterIff : (((firstDedup qts).filter fun t =>
      decide (t ∈ preprocess_text seg title)) ≠ []) ↔
      (∃ t ∈ qts, t ∈ preprocess_text seg title) := by
    constructor
    · intro h
      obtain ⟨x, hx⟩ := List.exists_mem_of_ne_nil _ h
      rcases List.mem_filter.mp hx with ⟨hx1, hx2⟩
      exact ⟨x, (mem_firstDedup x qts).mp hx1, by simpa using hx2⟩
    · rintro ⟨t, ht, htT⟩ hnil
      have hmem : t ∈ (firstDedup qts).filter fun t =>
          decide (t ∈ preprocess_text seg title) :=
        List.mem_filter.mpr ⟨(mem_firstDedup t qts).mpr ht, by simpa using htT⟩
      rw [hnil] at hmem
      simp at hmem
  constructor
  · rintro (hq | hT)
    · unfold calculate_title_match_score
      rw [if_pos (Or.inl hq)]
    · by_cases ht : title = ""
      · unfold calculate_title_match_score
        rw [if_pos (Or.inr ht)]
      · by_cases hq : qts = []
        · unfold calculate_title_match_score
          rw [if_pos (Or.inl hq)]
        · unfold calculate_title_match_score
          rw [if_neg (fun h => h.elim hq ht)]
          dsimp only
          rw [if_pos hT]
  · intro hq hT
    have ht : title ≠ "" := fun h => hT (by rw [h]; exact preprocess_text_empty seg)
    have houter : ¬(qts = [] ∨ title = "") := fun h => h.elim hq ht
    refine ⟨?_, ?_, ?_, ?_⟩
    · intro hsub
      unfold calculate_title_match_score
      rw [if_neg houter]
      dsimp only
      rw [if_neg hT]
      rw [if_pos (hallIff.mpr hsub)]
    · intro hex hnall
      unfold calculate_title_match_score
      rw [if_neg houter]
      dsimp only
      rw [if_neg hT]
      rw [if_neg (fun h => hnall (hallIff.mp h))]
      rw [if_pos (hinterIff.mpr hex)]
      split_ifs <;> ring
    · intro hnone hsubstr
      have hnall : ¬∀ t ∈ qts, t ∈ preprocess_text seg title := by
        obtain ⟨t0, ht0⟩ := List.exists_mem_of_ne_nil _ hq
        exact fun h => hnone t0 ht0 (h t0 ht0)
      have hinter : ((firstDedup qts).filter fun t =>
          decide (t ∈ preprocess_text seg title)) = [] := by
        by_contra h
        obtain ⟨t, ht2, htT⟩ := hinterIff.mp h
        exact hnone t ht2 htT
      unfold calculate_title_match_score
      rw [if_neg houter]
      dsimp only
      rw [if_neg hT]
      rw [if_neg (fun h => hnall (hallIff.mp h))]
      rw [if_neg (fun hC => hC hinter)]
      rw [if_pos hsubstr]
    · intro hnone hnsubstr
      have hnall : ¬∀ t ∈ qts, t ∈ preprocess_text seg title := by
        obtain ⟨t0, ht0⟩ := List.exists_mem_of_ne_nil _ hq
        exact fun h => hnone t0 ht0 (h t0 ht0)
      have hinter : ((firstDedup qts).filter fun t =>
          decide (t ∈ preprocess_text seg title)) = [] := by
        by_contra h
        obtain ⟨t, ht2, htT⟩ := hinterIff.mp h
        exact hnone t ht2 htT
      unfold calculate_title_match_score
      rw [if_neg houter]
      dsimp only
      rw [if_neg hT]
      rw [if_neg (fun h => hnall (hallIff.mp h))]
      rw [if_neg (fun hC => hC hinter)]
      rw [if_neg hnsubstr]

/-- Witness for C2 (amended): a single boosted query token contained in the
title tokens takes the exact-match branch with keyword stacking. -/
theorem C2_title_bonus_branches_witness :
    calculate_title_match_score segDemo ["煨"] "煨制" =
      ChineseConfig.TITLE_EXACT_MATCH_BONUS +
        titleKeywordBonus ["煨"] (preprocess_text segDemo "煨制") :=
  ((C2_title_bonus_branches segDemo ["煨"] "煨制").2 (by decide) (by decide)).1
    (by decide)

/-- Counterexample to C2 as stated: for query token list [的] and title 的,
the title tokenizes to no tokens (的 is a stop word), the lowercase
space-joined query is a literal substring of the lowercase title, yet the
bonus is 0 rather than the substring constant 10. -/
theorem C2_counterexample :
    preprocess_text segDemo "的" = [] ∧
    pyIn (pyLower (spaceJoin ["的"])) (pyLower "的") ∧
    calculate_title_match_score segDemo ["的"] "的" = 0 ∧
    ChineseConfig.TITLE_SUBSTRING_MATCH_BONUS ≠ 0 := by
  refine ⟨by decide, by decide, by decide, ?_⟩
  unfold ChineseConfig.TITLE_SUBSTRING_MATCH_BONUS
  norm_num

/-! ## Fixtures for the tie-break and limit counterexamples -/

def recC3A : DocRec :=
  { path := "a.txt", title := "", filename := "a.txt", tokens := 5,
    title_tokens := 0, length := 5, term_frequencies := [("蕉", 1)],
    chinese_chars := 5 }

def recC3B : DocRec :=
  { path := "b.txt", title := "", filename := "b.txt", tokens := 5,
    title_tokens := 0, length := 5, term_frequencies := [("苹", 1), ("蕉", 1)],
    chinese_chars := 5 }

/-- A two-document index in which doc 8 contains both query terms and doc 0
only one; both titles are empty.  The posting lists are in build order, so
the candidate set receives 8 first (from the first query term) and then 0,
and CPython's small-int set also iterates this set as (8, 0): 8, inserted
first, lands in slot 0 of the 8-slot table and 0 collides into a later
slot. -/
def docIdxC3 : List (ℕ × DocRec) := [(0, recC3A), (8, recC3B)]

def invC3 : String → List (ℕ × ℕ) := fun t =>
  if t = "苹" then [(8, 1)] else if t = "蕉" then [(0, 1), (8, 1)] else []

theorem idfC3_ping : calculate_idf 2 invC3 "苹" = 0 := by
  unfold calculate_idf
  rw [if_neg (by decide : ¬invC3 "苹" = [])]
  dsimp only
  have h1 : (invC3 "苹").length = 1 := by decide
  rw [h1]
  have harg : (((2 : ℕ) : ℝ) - ((1 : ℕ) : ℝ) + 1/2) / (((1 : ℕ) : ℝ) + 1/2) = 1 := by
    push_cast
    norm_num
  rw [harg, Real.log_one]
  simp

theorem idfC3_jiao : calculate_idf 2 invC3 "蕉" = 0 := by
  unfold calculate_idf
  rw [if_neg (by decide : ¬invC3 "蕉" = [])]
  dsimp only
  have h1 : (invC3 "蕉").length = 2 := by decide
  rw [h1]
  have harg : (((2 : ℕ) : ℝ) - ((2 : ℕ) : ℝ) + 1/2) / (((2 : ℕ) : ℝ) + 1/2) = 1/5 := by
    push_cast
    norm_num
  rw [harg]
  have hlog : Real.log (1/5) ≤ 0 := Real.log_nonpos (by norm_num) (by norm_num)
  exact max_eq_left hlog

theorem baseC3B (a : ℝ) : base_score 2 invC3 a recC3B ["苹", "蕉"] = 0 := by
  unfold base_score
  have hc : counterList ["苹", "蕉"] = [("苹", 1), ("蕉", 1)] := by decide
  rw [hc]
  have l1 : recC3B.term_frequencies.lookup "苹" = some 1 := by decide
  have l2 : recC3B.term_frequencies.lookup "蕉" = some 1 := by decide
  simp only [List.map_cons, List.map_nil, List.sum_cons, List.sum_nil, l1, l2]
  unfold termContribution
  rw [idfC3_ping, idfC3_jiao]
  ring

theorem baseC3A (a : ℝ) : base_score 2 invC3 a recC3A ["苹", "蕉"] = 0 := by
  unfold base_score
  have hc : counterList ["苹", "蕉"] = [("苹", 1), ("蕉", 1)] := by decide
  rw [hc]
  have l1 : recC3A.term_frequencies.lookup "苹" = none := by decide
  have l2 : recC3A.term_frequencies.lookup "蕉" = some 1 := by decide
  simp only [List.map_cons, List.map_nil, List.sum_cons, List.sum_nil, l1, l2]
  unfold termContribution
  rw [idfC3_jiao]
  ring

theorem scoreC3B (a : ℝ) :
    (scoreEntry segDemo 2 invC3 a 8 recC3B ["苹", "蕉"]).score = 0 := by
  unfold scoreEntry
  dsimp only
  rw [baseC3B]
  have hb : calculate_title_match_score segDemo ["苹", "蕉"] recC3B.title = 0 := by decide
  rw [hb]
  norm_num

theorem scoreC3A (a : ℝ) :
    (scoreEntry segDemo 2 invC3 a 0 recC3A ["苹", "蕉"]).score = 0 := by
  unfold scoreEntry
  dsimp only
  rw [baseC3A]
  have hb : calculate_title_match_score segDemo ["苹", "蕉"] recC3A.title = 0 := by decide
  rw [hb]
  norm_num

theorem scoreEntry_doc_id (seg : Seg) (n : ℕ) (inv : String → List (ℕ × ℕ))
    (a : ℝ) (d : ℕ) (rec : DocRec) (q : List String) :
    (scoreEntry seg n inv a d rec q).doc_id = d := rfl

/-- Counterexample to C3 as stated: querying 苹蕉 over `docIdxC3` gives the
two candidates equal total score 0, yet doc 8 is listed before doc 0 — the
tie is resolved by candidate-enumeration order (8 enters the candidate set
first via the posting list of 苹), not by ascending doc id. -/
theorem C3_counterexample :
    (search segDemo docIdxC3 invC3 "苹蕉" none).map (fun r => r.doc_id) = [8, 0] ∧
    (search segDemo docIdxC3 invC3 "苹蕉" none).map (fun r => r.score) = [0, 0] := by
  have hq : preprocess_text segDemo "苹蕉" = ["苹", "蕉"] := by decide
  have hcand : candidateList invC3 ["苹", "蕉"] = [8, 0] := by decide
  have havg : (0 : ℝ) ≤ calculate_avg_doc_length docIdxC3 :=
    calculate_avg_doc_length_nonneg _
  have hlookup8 : docIdxC3.lookup 8 = some recC3B := by decide
  have hlookup0 : docIdxC3.lookup 0 = some recC3A := by decide
  have hsc : scoredDocs segDemo docIdxC3 invC3
      (calculate_avg_doc_length docIdxC3) ["苹", "蕉"] =
      [scoreEntry segDemo 2 invC3 (calculate_avg_doc_length docIdxC3) 8 recC3B ["苹", "蕉"],
       scoreEntry segDemo 2 invC3 (calculate_avg_doc_length docIdxC3) 0 recC3A ["苹", "蕉"]] := by
    rw [scoredDocs_eq _ _ _ _ _ havg, hcand]
    simp only [List.filterMap_cons, List.filterMap_nil, hlookup8, hlookup0,
      Option.map_some']
    rfl
  have hscores :
      (scoreEntry segDemo 2 invC3 (calculate_avg_doc_length docIdxC3) 0 recC3A
        ["苹", "蕉"]).score ≤
      (scoreEntry segDemo 2 invC3 (calculate_avg_doc_length docIdxC3) 8 recC3B
        ["苹", "蕉"]).score := by
    rw [scoreC3A, scoreC3B]
  have hsort : sortScoreDesc
      [scoreEntry segDemo 2 invC3 (calculate_avg_doc_length docIdxC3) 8 recC3B ["苹", "蕉"],
       scoreEntry segDemo 2 invC3 (calculate_avg_doc_length docIdxC3) 0 recC3A ["苹", "蕉"]] =
      [scoreEntry segDemo 2 invC3 (calculate_avg_doc_length docIdxC3) 8 recC3B ["苹", "蕉"],
       scoreEntry segDemo 2 invC3 (calculate_avg_doc_length docIdxC3) 0 recC3A ["苹", "蕉"]] := by
    simp only [sortScoreDesc, insertScoreDesc]
    rw [if_pos hscores]
  have hslice : pySliceTo (min ChineseConfig.DEFAULT_RESULTS_LIMIT
      ChineseConfig.MAX_RESULTS_LIMIT)
      [scoreEntry segDemo 2 invC3 (calculate_avg_doc_length docIdxC3) 8 recC3B ["苹", "蕉"],
       scoreEntry segDemo 2 invC3 (calculate_avg_doc_length docIdxC3) 0 recC3A ["苹", "蕉"]] =
      [scoreEntry segDemo 2 invC3 (calculate_avg_doc_length docIdxC3) 8 recC3B ["苹", "蕉"],
       scoreEntry segDemo 2 invC3 (calculate_avg_doc_length docIdxC3) 0 recC3A ["苹", "蕉"]] := by
    unfold pySliceTo ChineseConfig.DEFAULT_RESULTS_LIMIT ChineseConfig.MAX_RESULTS_LIMIT
    norm_num
  have hfull : search segDemo docIdxC3 invC3 "苹蕉" none =
      [scoreEntry segDemo 2 invC3 (calculate_avg_doc_length docIdxC3) 8 recC3B ["苹", "蕉"],
       scoreEntry segDemo 2 invC3 (calculate_avg_doc_length docIdxC3) 0 recC3A ["苹", "蕉"]] := by
    unfold search
    rw [hq]
    dsimp only
    rw [if_neg (by simp : ¬(["苹", "蕉"] : List String) = [])]
    rw [hcand]
    rw [if_neg (by simp : ¬([8, 0] : List ℕ) = [])]
    simp only [Option.getD_none]
    rw [hsc, hsort, hslice]
  rw [hfull]
  constructor
  · simp [scoreEntry_doc_id]
  · simp only [List.map_cons, List.map_nil, scoreC3A, scoreC3B]

/-- Counterexample to C4 as stated: the query 苹 has the non-empty candidate
set [8], yet an explicit limit of 0 is not clamped up to 1 — `search`
returns the empty list (`scored_docs[:0]`). -/
theorem C4_counterexample :
    candidateList invC3 (preprocess_text segDemo "苹") = [8] ∧
    search segDemo docIdxC3 invC3 "苹" (some 0) = [] := by
  refine ⟨by decide, ?_⟩
  unfold search
  simp only [Option.getD_some]
  have hmin : min (0 : ℤ) ChineseConfig.MAX_RESULTS_LIMIT = 0 := by
    unfold ChineseConfig.MAX_RESULTS_LIMIT
    norm_num
  rw [hmin]
  split_ifs
  · rfl
  · rfl
  · exact pySliceTo_zero _
